import Mathlib

/-!
Verification of the compilation-orchestration pipeline of the
`float-pigment-rust` repository (`src/lib.rs`).

The crate is a thin orchestration layer over the external `float_pigment_css`
`StyleSheetResource` engine.  The engine itself is an external collaborator
(declared out of scope by the design document), so it is embedded abstractly:
an `Engine` is an oracle whose answers may depend on the full trace of engine
calls made so far.  Each pipeline entry point is translated from the Rust
source and, besides its result value, also returns the trace of engine calls
it performed, so that ordering properties of the pipeline can be stated.

Naming note: the Rust field `tag_name_prefix` is embedded as `tag_name_pfx`,
and the engine call `add_tag_name_prefix` as the trace event `bindPfx`.
-/

namespace FloatPigment

/-- Byte strings (`Buffer` / `Uint8Array` on the Rust side) are lists of
byte values. -/
abbrev Bytes := List Nat

/-- The replacement character U+FFFD used by lossy UTF-8 decoding. -/
def replChar : Char := Char.ofNat 0xFFFD

/-- A byte is a UTF-8 continuation byte (`0x80 ..= 0xBF`). -/
def isCont (b : Nat) : Bool := 0x80 ≤ b && b ≤ 0xBF

/-- Admissible second byte of a three-byte sequence headed by `b`
(`0xE0` forbids overlongs, `0xED` forbids surrogates). -/
def isCont3 (b c : Nat) : Bool :=
  if b = 0xE0 then 0xA0 ≤ c && c ≤ 0xBF
  else if b = 0xED then 0x80 ≤ c && c ≤ 0x9F
  else isCont c

/-- Admissible second byte of a four-byte sequence headed by `b`
(`0xF0` forbids overlongs, `0xF4` forbids code points above U+10FFFF). -/
def isCont4 (b c : Nat) : Bool :=
  if b = 0xF0 then 0x90 ≤ c && c ≤ 0xBF
  else if b = 0xF4 then 0x80 ≤ c && c ≤ 0x8F
  else isCont c

/-- Core of lossy UTF-8 decoding (`String::from_utf8_lossy` in Rust):
well-formed sequences decode to their code point, and each maximal invalid
subpart is replaced by one U+FFFD.  The function is total: no input is an
error. -/
def utf8LossyAux : List Nat → List Char
  | [] => []
  | b :: rest =>
    if b ≤ 0x7F then Char.ofNat b :: utf8LossyAux rest
    else if 0xC2 ≤ b ∧ b ≤ 0xDF then
      match rest with
      | [] => [replChar]
      | c1 :: rest1 =>
        if isCont c1 then
          Char.ofNat ((b - 0xC0) * 0x40 + (c1 - 0x80)) :: utf8LossyAux rest1
        else replChar :: utf8LossyAux (c1 :: rest1)
    else if 0xE0 ≤ b ∧ b ≤ 0xEF then
      match rest with
      | [] => [replChar]
      | c1 :: rest1 =>
        if isCont3 b c1 then
          match rest1 with
          | [] => [replChar]
          | c2 :: rest2 =>
            if isCont c2 then
              Char.ofNat ((b - 0xE0) * 0x1000 + (c1 - 0x80) * 0x40 + (c2 - 0x80)) ::
                utf8LossyAux rest2
            else replChar :: utf8LossyAux (c2 :: rest2)
        else replChar :: utf8LossyAux (c1 :: rest1)
    else if 0xF0 ≤ b ∧ b ≤ 0xF4 then
      match rest with
      | [] => [replChar]
      | c1 :: rest1 =>
        if isCont4 b c1 then
          match rest1 with
          | [] => [replChar]
          | c2 :: rest2 =>
            if isCont c2 then
              match rest2 with
              | [] => [replChar]
              | c3 :: rest3 =>
                if isCont c3 then
                  Char.ofNat ((b - 0xF0) * 0x40000 + (c1 - 0x80) * 0x1000 +
                      (c2 - 0x80) * 0x40 + (c3 - 0x80)) :: utf8LossyAux rest3
                else replChar :: utf8LossyAux (c3 :: rest3)
            else replChar :: utf8LossyAux (c2 :: rest2)
        else replChar :: utf8LossyAux (c1 :: rest1)
    else replChar :: utf8LossyAux rest

/-- Lossy UTF-8 decoding of a byte string to a `String`
(`String::from_utf8_lossy(data).into_owned()`). -/
def utf8Lossy (bs : Bytes) : String := String.mk (utf8LossyAux bs)

/-- A warning returned by the engine's `add_source`; the pipeline only
consumes its `message` field. -/
structure Warning where
  message : String
deriving DecidableEq

/-- One engine call, as recorded in the trace:
`bindPfx` is `StyleSheetResource::add_tag_name_prefix`,
`register` is `add_source` (with the already-decoded text),
`serialize` is `serialize_bincode`, and
`buildIndex` is `generate_import_indexes` followed by serializing the
returned index. -/
inductive EngineEvent where
  | bindPfx (name pfxVal : String)
  | register (name : String) (text : String)
  | serialize (name : String)
  | buildIndex
deriving DecidableEq

/-- Trace of engine calls, oldest first. -/
abbrev Trace := List EngineEvent

/-- Abstract model of the external `StyleSheetResource` engine.  Its state is
the trace of calls made so far; each oracle field gives the answer of one
fallible or value-returning engine call as a function of that state:
`warnings tr name text` is what `add_source(name, text)` returns,
`serializeRes tr name` is what `serialize_bincode(name)` returns, and
`indexBytes tr` is the serialization of `generate_import_indexes()`. -/
structure Engine where
  warnings : Trace → String → String → List Warning
  serializeRes : Trace → String → Option Bytes
  indexBytes : Trace → Bytes

/-- Rust `CompileOption` (`src` is a `HashMap`; it is embedded as its list of
entries in iteration order, whose keys are unique by `HashMap` construction). -/
structure CompileOption where
  output_type : String
  tag_name_pfx : String
  src : List (String × Bytes)
deriving DecidableEq

/-- Rust `CompileSingleOption`. -/
structure CompileSingleOption where
  file_content : Bytes
  file_name : String
  output_type : String
  tag_name_pfx : String
deriving DecidableEq

/-- Rust `CompileResultItem`. -/
structure CompileResultItem where
  content : Bytes
  warnings : List String
deriving DecidableEq

/-- Rust `CompileResult` (`files` is a `HashMap`, embedded as its entry list
in insertion order). -/
structure CompileResult where
  import_index : Bytes
  files : List (String × CompileResultItem)
deriving DecidableEq

/-- `HashMap::insert`: replace the value in place if the key is present,
otherwise append a new entry. -/
def insertAL : List (String × CompileResultItem) → String → CompileResultItem →
    List (String × CompileResultItem)
  | [], k, v => [(k, v)]
  | p :: rest, k, v =>
    if p.1 = k then (k, v) :: rest else p :: insertAL rest k v

/-- `if let Some(file) = result.files.get_mut(name) { file.content = b }`:
overwrite the artifact of the entry with the given key, if present. -/
def setContent : List (String × CompileResultItem) → String → Bytes →
    List (String × CompileResultItem)
  | [], _, _ => []
  | p :: rest, name, b =>
    if p.1 = name then (p.1, { p.2 with content := b }) :: rest
    else p :: setContent rest name b

/-- Registration loop of `compile_sync` (lines 49-65 of `lib.rs`): decode each
source lossily, call `add_source`, and insert a result entry carrying an empty
artifact and the warning messages in order. -/
def registerPhase (E : Engine) :
    List (String × Bytes) → Trace → List (String × CompileResultItem) →
      Trace × List (String × CompileResultItem)
  | [], tr, fs => (tr, fs)
  | (name, data) :: rest, tr, fs =>
    let content := utf8Lossy data
    let warn := E.warnings tr name content
    let arr := warn.map Warning.message
    registerPhase E rest (tr ++ [EngineEvent.register name content])
      (insertAL fs name { content := [], warnings := arr })

/-- Serialization loop of `compile_sync` (lines 66-72 of `lib.rs`): for each
name, call `serialize_bincode`; on `Some`, overwrite that entry's artifact. -/
def serializePhase (E : Engine) :
    List String → Trace → List (String × CompileResultItem) →
      Trace × List (String × CompileResultItem)
  | [], tr, fs => (tr, fs)
  | name :: rest, tr, fs =>
    match E.serializeRes tr name with
    | some bincode =>
      serializePhase E rest (tr ++ [EngineEvent.serialize name])
        (setContent fs name bincode)
    | none => serializePhase E rest (tr ++ [EngineEvent.serialize name]) fs

/-- `compile_sync` (lines 33-77 of `lib.rs`): guard on `output_type`, bind the
tag-name prefix for every source name when non-empty, register all sources,
serialize each, then build and serialize the import index.  Returns the
result together with the engine-call trace. -/
def compile_sync (E : Engine) (cfg : CompileOption) : CompileResult × Trace :=
  if cfg.output_type = "bincode" then
    let tr0 : Trace :=
      if CompileOption.tag_name_pfx cfg = "" then []
      else cfg.src.map (fun p => EngineEvent.bindPfx p.1 (CompileOption.tag_name_pfx cfg))
    let r1 := registerPhase E cfg.src tr0 []
    let r2 := serializePhase E (cfg.src.map Prod.fst) r1.1 r1.2
    ({ import_index := E.indexBytes r2.1, files := r2.2 },
      r2.1 ++ [EngineEvent.buildIndex])
  else ({ import_index := [], files := [] }, [])

/-- Registration loop of the async `compile` (lines 99-114 of `lib.rs`); the
Rust source duplicates the loop body of `compile_sync` textually, so the
embedding keeps a separate copy. -/
def registerPhaseA (E : Engine) :
    List (String × Bytes) → Trace → List (String × CompileResultItem) →
      Trace × List (String × CompileResultItem)
  | [], tr, fs => (tr, fs)
  | (name, data) :: rest, tr, fs =>
    let content := utf8Lossy data
    let warn := E.warnings tr name content
    let arr := warn.map Warning.message
    registerPhaseA E rest (tr ++ [EngineEvent.register name content])
      (insertAL fs name { content := [], warnings := arr })

/-- Serialization loop of the async `compile` (lines 117-123 of `lib.rs`),
again a textual duplicate in the source. -/
def serializePhaseA (E : Engine) :
    List String → Trace → List (String × CompileResultItem) →
      Trace × List (String × CompileResultItem)
  | [], tr, fs => (tr, fs)
  | name :: rest, tr, fs =>
    match E.serializeRes tr name with
    | some bincode =>
      serializePhaseA E rest (tr ++ [EngineEvent.serialize name])
        (setContent fs name bincode)
    | none => serializePhaseA E rest (tr ++ [EngineEvent.serialize name]) fs

/-- Async `compile` (lines 80-139 of `lib.rs`): the whole pipeline body —
a textual duplicate of `compile_sync` — is spawned on a worker pool and its
value returned as `Ok`.  The embedding models the successfully completed
task; the `JoinError` branch (worker-pool fault) is a scheduling condition
with no counterpart in a pure model. -/
def compile (E : Engine) (cfg : CompileOption) :
    Except String (CompileResult × Trace) :=
  Except.ok
    (if cfg.output_type = "bincode" then
      let tr0 : Trace :=
        if CompileOption.tag_name_pfx cfg = "" then []
        else cfg.src.map (fun p => EngineEvent.bindPfx p.1 (CompileOption.tag_name_pfx cfg))
      let r1 := registerPhaseA E cfg.src tr0 []
      let r2 := serializePhaseA E (cfg.src.map Prod.fst) r1.1 r1.2
      ({ import_index := E.indexBytes r2.1, files := r2.2 },
        r2.1 ++ [EngineEvent.buildIndex])
    else ({ import_index := [], files := [] }, []))

/-- `compile_single_sync` (lines 179-204 of `lib.rs`): single-file form —
optional prefix binding, lossy decode, one `add_source`, one
`serialize_bincode`, no import index. -/
def compile_single_sync (E : Engine) (cfg : CompileSingleOption) :
    CompileResultItem × Trace :=
  if cfg.output_type = "bincode" then
    let tr0 : Trace :=
      if CompileSingleOption.tag_name_pfx cfg = "" then []
      else [EngineEvent.bindPfx cfg.file_name (CompileSingleOption.tag_name_pfx cfg)]
    let content := utf8Lossy cfg.file_content
    let warn := E.warnings tr0 cfg.file_name content
    let tr1 := tr0 ++ [EngineEvent.register cfg.file_name content]
    match E.serializeRes tr1 cfg.file_name with
    | some bincode =>
      ({ content := bincode, warnings := warn.map Warning.message },
        tr1 ++ [EngineEvent.serialize cfg.file_name])
    | none =>
      ({ content := [], warnings := warn.map Warning.message },
        tr1 ++ [EngineEvent.serialize cfg.file_name])
  else ({ content := [], warnings := [] }, [])

/-- Async `compile_single` (lines 142-176 of `lib.rs`): the body — a textual
duplicate of `compile_single_sync` — is spawned and its value returned as
`Ok`, as in `compile`. -/
def compile_single (E : Engine) (cfg : CompileSingleOption) :
    Except String (CompileResultItem × Trace) :=
  Except.ok
    (if cfg.output_type = "bincode" then
      let tr0 : Trace :=
        if CompileSingleOption.tag_name_pfx cfg = "" then []
        else [EngineEvent.bindPfx cfg.file_name (CompileSingleOption.tag_name_pfx cfg)]
      let content := utf8Lossy cfg.file_content
      let warn := E.warnings tr0 cfg.file_name content
      let tr1 := tr0 ++ [EngineEvent.register cfg.file_name content]
      match E.serializeRes tr1 cfg.file_name with
      | some bincode =>
        ({ content := bincode, warnings := warn.map Warning.message },
          tr1 ++ [EngineEvent.serialize cfg.file_name])
      | none =>
        ({ content := [], warnings := warn.map Warning.message },
          tr1 ++ [EngineEvent.serialize cfg.file_name])
    else ({ content := [], warnings := [] }, []))

/-- A concrete, fully computable engine used to evaluate the pipeline on
closed inputs: warnings and answers depend on the trace length, so that
call-order sensitivity is visible in results. -/
def demoEngine : Engine where
  warnings := fun tr name _ => [{ message := toString tr.length ++ ":" ++ name }]
  serializeRes := fun tr name =>
    if name = "a.css" then some [tr.length, 7] else none
  indexBytes := fun tr => [tr.length, 42]

end FloatPigment

namespace FloatPigment

/-! ## Trace and result characterization -/

/-- Register events of a source list, in order. -/
def regList (l : List (String × Bytes)) : Trace :=
  l.map (fun p => EngineEvent.register p.1 (utf8Lossy p.2))

/-- Serialize events of a name list, in order. -/
def serList (ns : List String) : Trace := ns.map EngineEvent.serialize

/-- Bind events emitted by the tag-name-prefixing phase of a batch request. -/
def bindEvts (cfg : CompileOption) : Trace :=
  if CompileOption.tag_name_pfx cfg = "" then []
  else cfg.src.map (fun p => EngineEvent.bindPfx p.1 (CompileOption.tag_name_pfx cfg))

/-- Entries produced by the registration loop, as a direct recursion: the
entry of the i-th source carries an empty artifact and the messages the
engine answered on the trace as of that registration. -/
def regItems (E : Engine) : List (String × Bytes) → Trace →
    List (String × CompileResultItem)
  | [], _ => []
  | (name, data) :: rest, tr =>
    (name, { content := [],
             warnings := (E.warnings tr name (utf8Lossy data)).map Warning.message }) ::
      regItems E rest (tr ++ [EngineEvent.register name (utf8Lossy data)])

/-- Effect of one serialization step on one entry: overwrite the artifact
when the engine answers `some`, keep the entry otherwise. -/
def serAt (E : Engine) (tr : Trace) (p : String × CompileResultItem) :
    CompileResultItem :=
  match E.serializeRes tr p.1 with
  | some b => { p.2 with content := b }
  | none => p.2

/-- Entries after the serialization loop, as a direct recursion over the
entry list. -/
def serContents (E : Engine) (tr : Trace) :
    List (String × CompileResultItem) → List (String × CompileResultItem)
  | [] => []
  | (name, item) :: rest =>
    (name, serAt E tr (name, item)) ::
      serContents E (tr ++ [EngineEvent.serialize name]) rest

/-- Batch pipeline in which `bind_prefix` is never called, following the
spec's words for P3 (prefix neutrality): `compile_sync` with the
tag-name-prefixing phase removed, all else unchanged. -/
def compile_sync_noBind (E : Engine) (cfg : CompileOption) :
    CompileResult × Trace :=
  if cfg.output_type = "bincode" then
    let r1 := registerPhase E cfg.src [] []
    let r2 := serializePhase E (cfg.src.map Prod.fst) r1.1 r1.2
    ({ import_index := E.indexBytes r2.1, files := r2.2 },
      r2.1 ++ [EngineEvent.buildIndex])
  else ({ import_index := [], files := [] }, [])

/-- Tests whether a trace event is a `bind_prefix` call. -/
def isBind : EngineEvent → Bool
  | EngineEvent.bindPfx _ _ => true
  | _ => false

/-- Example batch request: two sources, the second one not valid UTF-8,
empty tag-name prefix. -/
def exCfg : CompileOption :=
  { output_type := "bincode", tag_name_pfx := "",
    src := [("a.css", [97]), ("b.css", [255, 97])] }

/-- Example batch request with a non-empty tag-name prefix. -/
def exCfgPfx : CompileOption :=
  { output_type := "bincode", tag_name_pfx := "wx",
    src := [("a.css", [97]), ("b.css", [104, 105])] }

/-- Example batch request with an unrecognized output kind and non-empty
sources. -/
def exCfgJson : CompileOption :=
  { output_type := "json", tag_name_pfx := "wx", src := [("a.css", [97])] }

/-- Example batch request with empty sources. -/
def exCfgEmpty : CompileOption :=
  { output_type := "bincode", tag_name_pfx := "", src := [] }

theorem registerPhase_trace (E : Engine) :
    ∀ (l : List (String × Bytes)) (tr : Trace)
      (fs : List (String × CompileResultItem)),
      (registerPhase E l tr fs).1 = tr ++ regList l := by
  intro l
  induction l with
  | nil => intro tr fs; simp [registerPhase, regList]
  | cons p rest ih =>
    intro tr fs
    obtain ⟨name, data⟩ := p
    simp [registerPhase, regList, ih, List.append_assoc]

theorem serializePhase_trace (E : Engine) :
    ∀ (ns : List String) (tr : Trace)
      (fs : List (String × CompileResultItem)),
      (serializePhase E ns tr fs).1 = tr ++ serList ns := by
  intro ns
  induction ns with
  | nil => intro tr fs; simp [serializePhase, serList]
  | cons n rest ih =>
    intro tr fs
    cases h : E.serializeRes tr n <;>
      simp [serializePhase, serList, h, ih, List.append_assoc]

/-- The full engine-call trace of a bincode batch run: binds, then
registrations, then serializations, then the single index build. -/
theorem compile_sync_trace (E : Engine) (cfg : CompileOption)
    (hb : cfg.output_type = "bincode") :
    (compile_sync E cfg).2 =
      bindEvts cfg ++ regList cfg.src ++ serList (cfg.src.map Prod.fst) ++
        [EngineEvent.buildIndex] := by
  simp [compile_sync, hb, bindEvts, registerPhase_trace, serializePhase_trace,
    List.append_assoc]

/-- The import index of a bincode batch run is the engine's answer on the
trace holding all binds, registrations and serializations. -/
theorem compile_sync_index (E : Engine) (cfg : CompileOption)
    (hb : cfg.output_type = "bincode") :
    (compile_sync E cfg).1.import_index =
      E.indexBytes (bindEvts cfg ++ regList cfg.src ++
        serList (cfg.src.map Prod.fst)) := by
  simp [compile_sync, hb, bindEvts, registerPhase_trace, serializePhase_trace,
    List.append_assoc]

theorem insertAL_notMem :
    ∀ (fs : List (String × CompileResultItem)) (k : String)
      (v : CompileResultItem), k ∉ fs.map Prod.fst →
      insertAL fs k v = fs ++ [(k, v)] := by
  intro fs
  induction fs with
  | nil => intro k v _; rfl
  | cons p rest ih =>
    intro k v h
    simp only [List.map_cons, List.mem_cons, not_or] at h
    rw [insertAL, if_neg (fun hc => h.1 hc.symm), ih k v h.2]
    simp

theorem setContent_notMem :
    ∀ (fs : List (String × CompileResultItem)) (name : String) (b : Bytes),
      name ∉ fs.map Prod.fst → setContent fs name b = fs := by
  intro fs
  induction fs with
  | nil => intro name b _; rfl
  | cons p rest ih =>
    intro name b h
    simp only [List.map_cons, List.mem_cons, not_or] at h
    rw [setContent, if_neg (fun hc => h.1 hc.symm), ih name b h.2]

theorem setContent_append_head (name : String) (it : CompileResultItem)
    (b : Bytes) :
    ∀ (pre rest : List (String × CompileResultItem)),
      name ∉ pre.map Prod.fst →
      setContent (pre ++ (name, it) :: rest) name b =
        pre ++ (name, { it with content := b }) :: rest := by
  intro pre
  induction pre with
  | nil => intro rest _; simp [setContent]
  | cons p pre1 ih =>
    intro rest h
    simp only [List.map_cons, List.mem_cons, not_or] at h
    simp only [List.cons_append, setContent, List.append_eq]
    rw [if_neg (fun hc => h.1 hc.symm), ih rest h.2]

theorem registerPhase_files (E : Engine) :
    ∀ (l : List (String × Bytes)) (tr : Trace)
      (fs : List (String × CompileResultItem)),
      (l.map Prod.fst).Nodup →
      (∀ k, k ∈ l.map Prod.fst → k ∉ fs.map Prod.fst) →
      (registerPhase E l tr fs).2 = fs ++ regItems E l tr := by
  intro l
  induction l with
  | nil => intro tr fs _ _; simp [registerPhase, regItems]
  | cons p rest ih =>
    intro tr fs hnd hdis
    obtain ⟨name, data⟩ := p
    simp only [List.map_cons, List.nodup_cons] at hnd
    have hn : name ∉ fs.map Prod.fst := by
      apply hdis; simp
    rw [registerPhase]
    rw [insertAL_notMem fs name _ hn]
    rw [ih _ _ hnd.2 ?_]
    · simp [regItems]
    · intro k hk
      simp only [List.map_append, List.mem_append, not_or]
      constructor
      · exact hdis k (by simp [hk])
      · simp only [List.map_cons, List.map_nil, List.mem_singleton]
        intro hkn
        exact hnd.1 (by simpa [hkn] using hk)

theorem serializePhase_files (E : Engine) :
    ∀ (fs pre : List (String × CompileResultItem)) (tr : Trace),
      ((pre ++ fs).map Prod.fst).Nodup →
      (serializePhase E (fs.map Prod.fst) tr (pre ++ fs)).2 =
        pre ++ serContents E tr fs := by
  intro fs
  induction fs with
  | nil => intro pre tr _; simp [serializePhase, serContents]
  | cons p rest ih =>
    intro pre tr hnd
    obtain ⟨name, item⟩ := p
    have hpre : name ∉ pre.map Prod.fst := by
      simp only [List.map_append, List.nodup_append, List.map_cons] at hnd
      intro hc
      exact hnd.2.2 hc (by simp)
    simp only [List.map_cons]
    rw [serializePhase]
    split
    next b h =>
      rw [setContent_append_head name item b pre rest hpre]
      have hstep := ih (pre ++ [(name, { item with content := b })])
        (tr ++ [EngineEvent.serialize name]) ?_
      · rw [List.append_assoc] at hstep
        simp only [List.singleton_append] at hstep
        rw [hstep]
        simp [serContents, serAt, h]
      · simp only [List.map_append, List.map_cons] at hnd ⊢
        simpa using hnd
    next h =>
      have hstep := ih (pre ++ [(name, item)])
        (tr ++ [EngineEvent.serialize name]) ?_
      · rw [List.append_assoc] at hstep
        simp only [List.singleton_append] at hstep
        rw [hstep]
        simp [serContents, serAt, h]
      · simp only [List.map_append, List.map_cons] at hnd ⊢
        simpa using hnd

theorem regItems_fst (E : Engine) :
    ∀ (l : List (String × Bytes)) (tr : Trace),
      (regItems E l tr).map Prod.fst = l.map Prod.fst := by
  intro l
  induction l with
  | nil => intro tr; rfl
  | cons p rest ih =>
    intro tr
    obtain ⟨name, data⟩ := p
    simp [regItems, ih]

theorem serContents_fst (E : Engine) :
    ∀ (fs : List (String × CompileResultItem)) (tr : Trace),
      (serContents E tr fs).map Prod.fst = fs.map Prod.fst := by
  intro fs
  induction fs with
  | nil => intro tr; rfl
  | cons p rest ih =>
    intro tr
    obtain ⟨name, item⟩ := p
    simp [serContents, ih]

/-- The files mapping of a bincode batch run, characterized: registration
entries (in source order) post-processed by the serialization loop. -/
theorem compile_sync_files (E : Engine) (cfg : CompileOption)
    (hb : cfg.output_type = "bincode")
    (hnd : (cfg.src.map Prod.fst).Nodup) :
    (compile_sync E cfg).1.files =
      serContents E (bindEvts cfg ++ regList cfg.src)
        (regItems E cfg.src (bindEvts cfg)) := by
  have h1 : (registerPhase E cfg.src (bindEvts cfg) []).2 =
      regItems E cfg.src (bindEvts cfg) := by
    simpa using registerPhase_files E cfg.src (bindEvts cfg) [] hnd (by simp)
  have h1t : (registerPhase E cfg.src (bindEvts cfg) []).1 =
      bindEvts cfg ++ regList cfg.src := registerPhase_trace E cfg.src _ _
  have h2 := serializePhase_files E (regItems E cfg.src (bindEvts cfg)) []
      (bindEvts cfg ++ regList cfg.src)
      (by simpa [regItems_fst] using hnd)
  simp only [List.nil_append, regItems_fst] at h2
  simp only [compile_sync, hb, if_pos]
  simp only [bindEvts] at h1 h1t h2 ⊢
  rw [h1, h1t] at *
  rw [h2]

theorem serContents_regItems_lookup (E : Engine) :
    ∀ (l : List (String × Bytes)) (tr tr' : Trace),
      (l.map Prod.fst).Nodup →
      ∀ (i : Nat) (hi : i < l.length),
        List.lookup (l.get ⟨i, hi⟩).1 (serContents E tr' (regItems E l tr)) =
          some { content :=
                   (E.serializeRes (tr' ++ serList ((l.map Prod.fst).take i))
                     (l.get ⟨i, hi⟩).1).getD [],
                 warnings :=
                   (E.warnings (tr ++ regList (l.take i)) (l.get ⟨i, hi⟩).1
                     (utf8Lossy (l.get ⟨i, hi⟩).2)).map Warning.message } := by
  intro l
  induction l with
  | nil => intro tr tr' _ i hi; exact absurd hi (by simp)
  | cons p rest ih =>
    intro tr tr' hnd i hi
    obtain ⟨name, data⟩ := p
    simp only [List.map_cons, List.nodup_cons] at hnd
    match i with
    | 0 =>
      simp only [List.get, regItems, serContents, List.take_zero]
      cases h : E.serializeRes tr' name <;>
        simp [List.lookup, serAt, h, serList, regList]
    | Nat.succ j =>
      have hj : j < rest.length := by
        simpa [Nat.succ_lt_succ_iff] using hi
      have hmem : (rest.get ⟨j, hj⟩).1 ∈ rest.map Prod.fst :=
        List.mem_map.mpr ⟨rest.get ⟨j, hj⟩, List.get_mem rest j hj, rfl⟩
      have hne : ((rest.get ⟨j, hj⟩).1 == name) = false := by
        rw [beq_eq_false_iff_ne]
        intro hc
        exact hnd.1 (hc ▸ hmem)
      simp only [List.get, regItems, serContents, List.lookup, hne]
      have := ih (tr ++ [EngineEvent.register name (utf8Lossy data)])
        (tr' ++ [EngineEvent.serialize name]) hnd.2 j hj
      rw [this]
      simp [serList, regList, List.append_assoc, List.take_succ_cons]

/-- Entry lookup in a bincode batch run: the i-th source's entry holds the
artifact answered by `serialize_bincode` on the serialization-time trace
(defaulting to empty on `none`) and the messages answered by `add_source` on
the registration-time trace. -/
theorem compile_sync_lookup (E : Engine) (cfg : CompileOption)
    (hb : cfg.output_type = "bincode")
    (hnd : (cfg.src.map Prod.fst).Nodup)
    (i : Nat) (hi : i < cfg.src.length) :
    List.lookup (cfg.src.get ⟨i, hi⟩).1 (compile_sync E cfg).1.files =
      some { content :=
               (E.serializeRes
                 (bindEvts cfg ++ regList cfg.src ++
                   serList ((cfg.src.map Prod.fst).take i))
                 (cfg.src.get ⟨i, hi⟩).1).getD [],
             warnings :=
               (E.warnings (bindEvts cfg ++ regList (cfg.src.take i))
                 (cfg.src.get ⟨i, hi⟩).1
                 (utf8Lossy (cfg.src.get ⟨i, hi⟩).2)).map Warning.message } := by
  rw [compile_sync_files E cfg hb hnd]
  rw [serContents_regItems_lookup E cfg.src (bindEvts cfg)
    (bindEvts cfg ++ regList cfg.src) hnd i hi]

/-! ## Claims -/

theorem registerPhaseA_eq (E : Engine) :
    ∀ (l : List (String × Bytes)) (tr : Trace)
      (fs : List (String × CompileResultItem)),
      registerPhaseA E l tr fs = registerPhase E l tr fs := by
  intro l
  induction l with
  | nil => intro tr fs; rfl
  | cons p rest ih =>
    intro tr fs
    obtain ⟨name, data⟩ := p
    simp [registerPhaseA, registerPhase, ih]

theorem serializePhaseA_eq (E : Engine) :
    ∀ (ns : List String) (tr : Trace)
      (fs : List (String × CompileResultItem)),
      serializePhaseA E ns tr fs = serializePhase E ns tr fs := by
  intro ns
  induction ns with
  | nil => intro tr fs; rfl
  | cons n rest ih =>
    intro tr fs
    rw [serializePhaseA, serializePhase]
    cases h : E.serializeRes tr n <;> simp [ih]

/-- C1: in a bincode batch run over sources with pairwise-distinct names (as
a `HashMap` guarantees), the result's files mapping has exactly the key list
of the request's sources: every input name yields exactly one entry. -/
theorem C1_files_complete (E : Engine) (cfg : CompileOption)
    (hb : cfg.output_type = "bincode")
    (hnd : (cfg.src.map Prod.fst).Nodup) :
    (compile_sync E cfg).1.files.map Prod.fst = cfg.src.map Prod.fst := by
  rw [compile_sync_files E cfg hb hnd, serContents_fst, regItems_fst]

theorem C1_witness :
    exCfg.output_type = "bincode" ∧ (exCfg.src.map Prod.fst).Nodup ∧
    (compile_sync demoEngine exCfg).1.files.map Prod.fst =
      exCfg.src.map Prod.fst :=
  ⟨rfl, by decide, C1_files_complete demoEngine exCfg rfl (by decide)⟩

/-- C2: a batch request with any output kind other than "bincode" performs no
engine calls (empty trace) and returns empty files and empty import index,
whatever the sources hold; both the blocking and the offloaded entry point
behave so, and neither signals an error. -/
theorem C2_noop_policy (E : Engine) (cfg : CompileOption)
    (h : cfg.output_type ≠ "bincode") :
    compile_sync E cfg = ({ import_index := [], files := [] }, []) ∧
    compile E cfg = Except.ok ({ import_index := [], files := [] }, []) := by
  constructor
  · simp [compile_sync, h]
  · simp [compile, h]

theorem C2_witness :
    exCfgJson.output_type ≠ "bincode" ∧
    compile_sync demoEngine exCfgJson = ({ import_index := [], files := [] }, []) ∧
    compile demoEngine exCfgJson = Except.ok ({ import_index := [], files := [] }, []) :=
  ⟨by decide, (C2_noop_policy demoEngine exCfgJson (by decide)).1,
    (C2_noop_policy demoEngine exCfgJson (by decide)).2⟩

/-- C3: for every request value, the offloaded entry points compute exactly
the value of the blocking entry points (same artifacts, diagnostics in the
same order, same import index, and even the same engine-call trace), wrapped
in the success case of the deferred result. -/
theorem C3_modes_equivalent (E : Engine) (cfg : CompileOption)
    (scfg : CompileSingleOption) :
    compile E cfg = Except.ok (compile_sync E cfg) ∧
    compile_single E scfg = Except.ok (compile_single_sync E scfg) := by
  constructor
  · simp only [compile, compile_sync, registerPhaseA_eq, serializePhaseA_eq]
  · rfl

/-- C4 as stated is false: it quantifies over every output kind k, but for
any k other than "bincode" the batch files mapping is empty, so there is no
entry under n for the single-file result to equal.  Concretely, with
n = "a.css", c = [97], k = "json", p = "": the single-file operation returns
a FileResult, yet the batch mapping holds no entry under "a.css". -/
theorem C4_counterexample :
    ¬ List.lookup "a.css"
        (compile_sync demoEngine
          { output_type := "json", tag_name_pfx := "",
            src := [("a.css", [97])] }).1.files =
      some (compile_single_sync demoEngine
        { file_content := [97], file_name := "a.css",
          output_type := "json", tag_name_pfx := "" }).1 := by
  decide

/-- C4 amended: restricted to output kind "bincode" (for any other kind the
batch mapping has no entry under n), the single-file operation on
(n, c, "bincode", p) returns exactly the FileResult stored under n by the
batch operation on a singleton source mapping, field by field. -/
theorem C4_single_batch (E : Engine) (n : String) (c : Bytes) (p : String) :
    List.lookup n
        (compile_sync E
          { output_type := "bincode", tag_name_pfx := p,
            src := [(n, c)] }).1.files =
      some (compile_single_sync E
        { file_content := c, file_name := n,
          output_type := "bincode", tag_name_pfx := p }).1 := by
  by_cases hp : p = "" <;>
    cases hs : E.serializeRes
      ((if p = "" then [] else [EngineEvent.bindPfx n p]) ++
        [EngineEvent.register n (utf8Lossy c)]) n <;>
    simp_all [compile_sync, compile_single_sync, registerPhase,
      serializePhase, insertAL, setContent, List.lookup]

/-- C5: a source whose raw bytes are arbitrary (in particular not valid
UTF-8) never causes an error: its bytes are decoded lossily, the decoded
text is registered with the engine, and the files mapping still holds an
entry for that name. -/
theorem C5_lossy_decoding (E : Engine) (cfg : CompileOption)
    (n : String) (bs : Bytes)
    (hb : cfg.output_type = "bincode")
    (hnd : (cfg.src.map Prod.fst).Nodup)
    (hmem : (n, bs) ∈ cfg.src) :
    (∃ item, List.lookup n (compile_sync E cfg).1.files = some item) ∧
    EngineEvent.register n (utf8Lossy bs) ∈ (compile_sync E cfg).2 := by
  obtain ⟨⟨i, hi⟩, hget⟩ := List.mem_iff_get.mp hmem
  constructor
  · have h := compile_sync_lookup E cfg hb hnd i hi
    rw [hget] at h
    exact ⟨_, h⟩
  · rw [compile_sync_trace E cfg hb]
    have h : EngineEvent.register n (utf8Lossy bs) ∈ regList cfg.src :=
      List.mem_map.mpr ⟨(n, bs), hmem, rfl⟩
    simp [h]

theorem C5_witness :
    exCfg.output_type = "bincode" ∧ (exCfg.src.map Prod.fst).Nodup ∧
    ("b.css", [255, 97]) ∈ exCfg.src ∧
    ((∃ item, List.lookup "b.css" (compile_sync demoEngine exCfg).1.files =
        some item) ∧
      EngineEvent.register "b.css" (utf8Lossy [255, 97]) ∈
        (compile_sync demoEngine exCfg).2) :=
  ⟨rfl, by decide, by decide,
    C5_lossy_decoding demoEngine exCfg "b.css" [255, 97] rfl (by decide)
      (by decide)⟩

/-- C6: with an empty tag-name prefix the prefix-binding phase is skipped:
the whole result (files, import index, trace) equals that of the pipeline
variant that never calls bind_prefix; with a non-empty prefix, a bincode run
performs exactly one bind_prefix call per source name, in source order. -/
theorem C6_prefix_neutrality (E : Engine) (cfg : CompileOption) :
    (CompileOption.tag_name_pfx cfg = "" →
      compile_sync E cfg = compile_sync_noBind E cfg) ∧
    (CompileOption.tag_name_pfx cfg ≠ "" → cfg.output_type = "bincode" →
      (compile_sync E cfg).2.filter isBind =
        cfg.src.map
          (fun q => EngineEvent.bindPfx q.1 (CompileOption.tag_name_pfx cfg))) := by
  constructor
  · intro h
    simp [compile_sync, compile_sync_noBind, h]
  · intro h hb
    rw [compile_sync_trace E cfg hb]
    have hfb : ∀ (l : List (String × Bytes)) (s : String),
        (l.map (fun q => EngineEvent.bindPfx q.1 s)).filter isBind =
          l.map (fun q => EngineEvent.bindPfx q.1 s) := by
      intro l s
      induction l with
      | nil => rfl
      | cons q rest ih => simp [isBind, ih]
    have hfr : ∀ (l : List (String × Bytes)),
        (l.map (fun q => EngineEvent.register q.1 (utf8Lossy q.2))).filter
          isBind = [] := by
      intro l
      induction l with
      | nil => rfl
      | cons q rest ih =>
        have hq : isBind (EngineEvent.register q.1 (utf8Lossy q.2)) = false :=
          rfl
        simp [List.filter_cons, hq, ih]
    have hfs : ∀ (ns : List String),
        (ns.map EngineEvent.serialize).filter isBind = [] := by
      intro ns
      induction ns with
      | nil => rfl
      | cons q rest ih =>
        have hq : isBind (EngineEvent.serialize q) = false := rfl
        simp [List.filter_cons, hq, ih]
    have hbi : isBind EngineEvent.buildIndex = false := rfl
    simp [bindEvts, h, regList, serList, List.filter_append, hfb, hfr, hfs,
      List.filter_cons, hbi]
    intro a x x1 _ hax
    subst hax
    rfl

theorem C6_witness :
    (CompileOption.tag_name_pfx exCfg = "" ∧
      compile_sync demoEngine exCfg = compile_sync_noBind demoEngine exCfg) ∧
    (CompileOption.tag_name_pfx exCfgPfx ≠ "" ∧
      exCfgPfx.output_type = "bincode" ∧
      (compile_sync demoEngine exCfgPfx).2.filter isBind =
        exCfgPfx.src.map
          (fun q => EngineEvent.bindPfx q.1 (CompileOption.tag_name_pfx exCfgPfx))) :=
  ⟨⟨rfl, (C6_prefix_neutrality demoEngine exCfg).1 rfl⟩,
    ⟨by decide, rfl,
      (C6_prefix_neutrality demoEngine exCfgPfx).2 (by decide) rfl⟩⟩

/-- C7: the diagnostics stored in the i-th source's FileResult are exactly
the messages of the warnings the engine answered when that source was
registered — on the trace holding the binds and the previous registrations —
mapped in order, with nothing reordered, deduplicated or dropped. -/
theorem C7_diagnostics_order (E : Engine) (cfg : CompileOption)
    (hb : cfg.output_type = "bincode")
    (hnd : (cfg.src.map Prod.fst).Nodup)
    (i : Nat) (hi : i < cfg.src.length) :
    ∃ c, List.lookup (cfg.src.get ⟨i, hi⟩).1 (compile_sync E cfg).1.files =
      some { content := c,
             warnings :=
               (E.warnings (bindEvts cfg ++ regList (cfg.src.take i))
                 (cfg.src.get ⟨i, hi⟩).1
                 (utf8Lossy (cfg.src.get ⟨i, hi⟩).2)).map Warning.message } :=
  ⟨_, compile_sync_lookup E cfg hb hnd i hi⟩

theorem C7_witness :
    exCfgPfx.output_type = "bincode" ∧ (exCfgPfx.src.map Prod.fst).Nodup ∧
    1 < exCfgPfx.src.length ∧
    ∃ c, List.lookup (exCfgPfx.src.get ⟨1, by decide⟩).1
        (compile_sync demoEngine exCfgPfx).1.files =
      some { content := c,
             warnings :=
               (demoEngine.warnings
                 (bindEvts exCfgPfx ++ regList (exCfgPfx.src.take 1))
                 (exCfgPfx.src.get ⟨1, by decide⟩).1
                 (utf8Lossy (exCfgPfx.src.get ⟨1, by decide⟩).2)).map
                 Warning.message } :=
  ⟨rfl, by decide, by decide,
    C7_diagnostics_order demoEngine exCfgPfx rfl (by decide) 1 (by decide)⟩

/-- C8: with output kind "bincode" the phases are strictly sequenced: the
engine-call trace is exactly all bind_prefix calls, then one registration per
source in order, then one serialize call per name in order, then a single
import-index build; in particular the index is built exactly once, after
every registration. -/
theorem C8_phase_sequencing (E : Engine) (cfg : CompileOption)
    (hb : cfg.output_type = "bincode") :
    (compile_sync E cfg).2 =
      bindEvts cfg ++ regList cfg.src ++ serList (cfg.src.map Prod.fst) ++
        [EngineEvent.buildIndex] ∧
    (compile_sync E cfg).2.count EngineEvent.buildIndex = 1 := by
  refine ⟨compile_sync_trace E cfg hb, ?_⟩
  rw [compile_sync_trace E cfg hb]
  have h1 : EngineEvent.buildIndex ∉ bindEvts cfg := by
    rw [bindEvts]
    split_ifs <;> simp
  have h2 : EngineEvent.buildIndex ∉ regList cfg.src := by
    simp [regList]
  have h3 : EngineEvent.buildIndex ∉ serList (cfg.src.map Prod.fst) := by
    simp [serList]
  simp [List.count_append, List.count_eq_zero.mpr h1,
    List.count_eq_zero.mpr h2, List.count_eq_zero.mpr h3]

theorem C8_witness :
    exCfgPfx.output_type = "bincode" ∧
    ((compile_sync demoEngine exCfgPfx).2 =
        bindEvts exCfgPfx ++ regList exCfgPfx.src ++
          serList (exCfgPfx.src.map Prod.fst) ++ [EngineEvent.buildIndex] ∧
      (compile_sync demoEngine exCfgPfx).2.count EngineEvent.buildIndex = 1) :=
  ⟨rfl, C8_phase_sequencing demoEngine exCfgPfx rfl⟩

/-- C9: for the i-th source name, if the engine's serialize answers bytes on
the serialization-time trace, the entry's artifact is exactly those bytes;
if it answers none, the artifact is the empty byte sequence left from
registration — in both cases a FileResult entry is present, never an error. -/
theorem C9_artifact_overwrite (E : Engine) (cfg : CompileOption)
    (hb : cfg.output_type = "bincode")
    (hnd : (cfg.src.map Prod.fst).Nodup)
    (i : Nat) (hi : i < cfg.src.length) :
    ∃ w,
      (∀ b, E.serializeRes
          (bindEvts cfg ++ regList cfg.src ++
            serList ((cfg.src.map Prod.fst).take i))
          (cfg.src.get ⟨i, hi⟩).1 = some b →
        List.lookup (cfg.src.get ⟨i, hi⟩).1 (compile_sync E cfg).1.files =
          some { content := b, warnings := w }) ∧
      (E.serializeRes
          (bindEvts cfg ++ regList cfg.src ++
            serList ((cfg.src.map Prod.fst).take i))
          (cfg.src.get ⟨i, hi⟩).1 = none →
        List.lookup (cfg.src.get ⟨i, hi⟩).1 (compile_sync E cfg).1.files =
          some { content := [], warnings := w }) := by
  refine ⟨(E.warnings (bindEvts cfg ++ regList (cfg.src.take i))
      (cfg.src.get ⟨i, hi⟩).1
      (utf8Lossy (cfg.src.get ⟨i, hi⟩).2)).map Warning.message,
    fun b hsb => ?_, fun hsn => ?_⟩
  · have h := compile_sync_lookup E cfg hb hnd i hi
    rw [hsb] at h
    exact h
  · have h := compile_sync_lookup E cfg hb hnd i hi
    rw [hsn] at h
    exact h

theorem C9_witness :
    exCfg.output_type = "bincode" ∧ (exCfg.src.map Prod.fst).Nodup ∧
    0 < exCfg.src.length ∧
    ∃ w,
      (∀ b, demoEngine.serializeRes
          (bindEvts exCfg ++ regList exCfg.src ++
            serList ((exCfg.src.map Prod.fst).take 0))
          (exCfg.src.get ⟨0, by decide⟩).1 = some b →
        List.lookup (exCfg.src.get ⟨0, by decide⟩).1
            (compile_sync demoEngine exCfg).1.files =
          some { content := b, warnings := w }) ∧
      (demoEngine.serializeRes
          (bindEvts exCfg ++ regList exCfg.src ++
            serList ((exCfg.src.map Prod.fst).take 0))
          (exCfg.src.get ⟨0, by decide⟩).1 = none →
        List.lookup (exCfg.src.get ⟨0, by decide⟩).1
            (compile_sync demoEngine exCfg).1.files =
          some { content := [], warnings := w }) :=
  ⟨rfl, by decide, by decide,
    C9_artifact_overwrite demoEngine exCfg rfl (by decide) 0 (by decide)⟩

/-- C10: in every bincode batch run the import index is unconditionally
built and serialized — the result's import_index field holds the engine's
serialized index over the full trace, even when sources is empty. -/
theorem C10_index_unconditional (E : Engine) (cfg : CompileOption)
    (hb : cfg.output_type = "bincode") :
    (compile_sync E cfg).1.import_index =
      E.indexBytes (bindEvts cfg ++ regList cfg.src ++
        serList (cfg.src.map Prod.fst)) :=
  compile_sync_index E cfg hb

theorem C10_witness :
    exCfgEmpty.output_type = "bincode" ∧
    (compile_sync demoEngine exCfgEmpty).1.import_index =
      demoEngine.indexBytes (bindEvts exCfgEmpty ++ regList exCfgEmpty.src ++
        serList (exCfgEmpty.src.map Prod.fst)) ∧
    (compile_sync demoEngine exCfgEmpty).1.import_index ≠ [] :=
  ⟨rfl, C10_index_unconditional demoEngine exCfgEmpty rfl, by decide⟩

end FloatPigment
